import Mathlib

/-!
Verification of the go-actionhero concurrent gateway layer.

This file shallowly embeds the Go source of `evantahler/go-actionhero`:
the action registry and lifecycle orchestrator (`internal/api` package,
`API` struct), the connection/subscription model and the dispatcher
`Connection.Act` (`internal/api/middleware.go`), and the web server's
route compiler/matcher, WebSocket connection table, and broadcast engine
(`internal/servers/web.go`).  Go maps are embedded as association lists
with overwrite/delete/lookup operations, goroutine-local effects are made
explicit (lists of emitted log lines, events and outbound frames), and
`time.Since` is an oracle parameter (the measured number of milliseconds).
-/

namespace GoActionHero

/-! ## Go map embedding (association lists) -/

/-- Go `m[k] = v`: overwrite the binding of `k`.  Go maps are unordered, so
any association-list representative with the same lookup function is a
faithful embedding; we keep the new binding at the end. -/
def mapSet {α : Type} (k : String) (v : α) (m : List (String × α)) : List (String × α) :=
  m.filter (fun kv => kv.1 ≠ k) ++ [(k, v)]

/-- Go `delete(m, k)`. -/
def mapDelete {α : Type} (k : String) (m : List (String × α)) : List (String × α) :=
  m.filter (fun kv => kv.1 ≠ k)

/-- Go `v, ok := m[k]` (the two-result form): `some v` iff the key is present. -/
def mapFind {α : Type} (k : String) (m : List (String × α)) : Option α :=
  (m.find? (fun kv => kv.1 = k)).map (fun kv => kv.2)

/-- Go `m[k]` for a `map[string]bool`: the zero value `false` when absent. -/
def mapGetBool (k : String) (m : List (String × Bool)) : Bool :=
  (mapFind k m).getD false

/-! ## JSON values

Parameters, payloads and envelopes are `map[string]interface{}` /
`interface{}` values that the Go code serializes with `encoding/json`.
We embed the JSON-serializable fragment. -/

inductive JVal where
  | null : JVal
  | bool (b : Bool) : JVal
  | num (n : Int) : JVal
  | str (s : String) : JVal
  | arr (xs : List JVal) : JVal
  | obj (fields : List (String × JVal)) : JVal
deriving Repr

/-- Serialization of a JSON string (the embedding does not model character
escaping; the claims never involve strings containing quotes). -/
def jStr (s : String) : String := "\"" ++ s ++ "\""

mutual

/-- Go `json.Marshal` on the embedded JSON fragment (total: every `JVal` is
serializable).  Object fields are emitted in stored order; Go emits map keys
in sorted order, so envelopes below are built with their keys pre-sorted. -/
def JVal.marshal : JVal → String
  | .null => "null"
  | .bool true => "true"
  | .bool false => "false"
  | .num n => toString n
  | .str s => jStr s
  | .arr xs => "[" ++ marshalArr xs ++ "]"
  | .obj fs => "\x7b" ++ marshalFields fs ++ "\x7d"

def marshalArr : List JVal → String
  | [] => ""
  | [x] => JVal.marshal x
  | x :: y :: xs => JVal.marshal x ++ "," ++ marshalArr (y :: xs)

def marshalFields : List (String × JVal) → String
  | [] => ""
  | [(k, v)] => jStr k ++ ":" ++ JVal.marshal v
  | (k, v) :: f :: fs => jStr k ++ ":" ++ JVal.marshal v ++ "," ++ marshalFields (f :: fs)

end

/-- Serialization of a `map[string]interface{}` value (a JSON object). -/
def marshalObj (fs : List (String × JVal)) : String :=
  JVal.marshal (.obj fs)

/-! ## Connection (`internal/api/middleware.go`)

`Connection` is the per-client session value: transport kind, remote
identifier, unique id, and the subscription set (`map[string]bool`).
The `sync.RWMutex` only guards the map; the sequential embedding drops it. -/

structure Connection where
  type : String
  identifier : String
  id : String
  subscriptions : List (String × Bool)
deriving DecidableEq, Repr

/-- `NewConnection`: fresh connection with an empty subscription map. -/
def newConnection (connType identifier id : String) : Connection :=
  ⟨connType, identifier, id, []⟩

/-- `Connection.Subscribe`: `c.Subscriptions[channel] = true`. -/
def Connection.subscribe (c : Connection) (channel : String) : Connection :=
  { c with subscriptions := mapSet channel true c.subscriptions }

/-- `Connection.Unsubscribe`: `delete(c.Subscriptions, channel)`. -/
def Connection.unsubscribe (c : Connection) (channel : String) : Connection :=
  { c with subscriptions := mapDelete channel c.subscriptions }

/-- `Connection.IsSubscribed`: `return c.Subscriptions[channel]`. -/
def Connection.isSubscribed (c : Connection) (channel : String) : Bool :=
  mapGetBool channel c.subscriptions

/-! ## Action registry (`API.RegisterAction` / `GetAction`, unnamed/part_003) -/

/-- An action as the registry and dispatcher see it: its unique name, an
optional web binding, and its `Run` function.  `Run(ctx, params, conn)`
receives the parameter map (possibly `nil`, embedded as `Option`) and
either returns a response value or an error string. -/
structure RegAction where
  name : String
  webRoute : Option (String × String)
  run : Option (List (String × JVal)) → Connection → Except String JVal

/-- `API.RegisterAction`: fails when the name already exists, otherwise
inserts.  Returns the new registry and `some errorMessage` on failure. -/
def registerAction (actions : List (String × RegAction)) (a : RegAction) :
    List (String × RegAction) × Option String :=
  if (mapFind a.name actions).isSome then
    (actions, some ("action '" ++ a.name ++ "' is already registered"))
  else
    (mapSet a.name a actions, none)

/-- `API.GetAction`: concurrent-safe lookup, `(action, exists)` in Go. -/
def getAction (actions : List (String × RegAction)) (name : String) : Option RegAction :=
  mapFind name actions

/-! ## Lifecycle orchestrator (`API`, unnamed/part_003)

Registered components are embedded with canned outcomes for their
`Initialize`/`Start`/`Stop` calls (`none` = success, `some e` = the error
they return), which is exactly how the orchestrator observes them.
The `Server` interface has `Name/Initialize/Start/Stop` and **no**
priority; the `Initializer` interface additionally has `Priority() int`. -/

structure InitializerC where
  name : String
  priority : Int
  initErr : Option String
  startErr : Option String
  stopErr : Option String
deriving DecidableEq, Repr

structure ServerC where
  name : String
  initErr : Option String
  startErr : Option String
  stopErr : Option String
deriving DecidableEq, Repr

/-- The `API` struct's lifecycle-relevant state: the registered components,
the `running` flag, and whether the shared context has been cancelled. -/
structure ApiState where
  actions : List (String × RegAction)
  servers : List ServerC
  initializers : List InitializerC
  running : Bool
  ctxCancelled : Bool

/-- One observed component invocation, in program order. -/
inductive LifeEvent where
  | initInit (name : String)
  | initServer (name : String)
  | startInit (name : String)
  | startServer (name : String)
  | stopServer (name : String)
  | stopInit (name : String)
deriving DecidableEq, Repr

/-- The inner `j`-loop of the sort in `API.GetInitializers`, for a fixed
outer index `i`: `x` is the current `initializers[i]`, the list is
`initializers[i+1:]` in order, and `if a[i].Priority() > a[j].Priority()`
the two slots are swapped.  Returns the final `a[i]` together with the
final contents of slots `i+1:`. -/
def selectPass (x : InitializerC) : List InitializerC → InitializerC × List InitializerC
  | [] => (x, [])
  | y :: ys =>
    if x.priority > y.priority then
      let p := selectPass y ys
      (p.1, x :: p.2)
    else
      let p := selectPass x ys
      (p.1, y :: p.2)

/-- The outer `i`-loop of the sort in `API.GetInitializers`: after the inner
pass, slot `i` is never touched again.  The outer loop runs exactly
`len(initializers)` times, hence the fuel. -/
def goSortAux : Nat → List InitializerC → List InitializerC
  | 0, l => l
  | _ + 1, [] => []
  | n + 1, x :: xs =>
    let p := selectPass x xs
    p.1 :: goSortAux n p.2

/-- `API.GetInitializers`: a copy of the registered initializers, sorted by
priority with the double swap loop (lower priority first). -/
def getInitializers (initializers : List InitializerC) : List InitializerC :=
  goSortAux initializers.length initializers

/-- The initializer loop of `API.Initialize`: call `Initialize` on each in
order, aborting on the first error, wrapped as in the source. -/
def initLoopInits : List InitializerC → List LifeEvent × Option String
  | [] => ([], none)
  | i :: rest =>
    match i.initErr with
    | some e => ([.initInit i.name], some ("failed to initialize " ++ i.name ++ ": " ++ e))
    | none =>
      let p := initLoopInits rest
      (.initInit i.name :: p.1, p.2)

/-- The server loop of `API.Initialize`. -/
def initLoopServers : List ServerC → List LifeEvent × Option String
  | [] => ([], none)
  | s :: rest =>
    match s.initErr with
    | some e => ([.initServer s.name], some ("failed to initialize server " ++ s.name ++ ": " ++ e))
    | none =>
      let p := initLoopServers rest
      (.initServer s.name :: p.1, p.2)

/-- The initializer loop of `API.Start`. -/
def startLoopInits : List InitializerC → List LifeEvent × Option String
  | [] => ([], none)
  | i :: rest =>
    match i.startErr with
    | some e => ([.startInit i.name], some ("failed to start " ++ i.name ++ ": " ++ e))
    | none =>
      let p := startLoopInits rest
      (.startInit i.name :: p.1, p.2)

/-- The server loop of `API.Start`. -/
def startLoopServers : List ServerC → List LifeEvent × Option String
  | [] => ([], none)
  | s :: rest =>
    match s.startErr with
    | some e => ([.startServer s.name], some ("failed to start server " ++ s.name ++ ": " ++ e))
    | none =>
      let p := startLoopServers rest
      (.startServer s.name :: p.1, p.2)

/-- The result of a lifecycle call: the successor state, the returned
error (if any), and the component invocations performed. -/
structure LifeResult where
  state : ApiState
  error : Option String
  events : List LifeEvent

/-- `API.Initialize`: guarded by `running` (fails fast, no side effects),
then initializes all initializers in priority order, then all servers in
registration order, aborting on the first error. -/
def ApiState.initAll (s : ApiState) : LifeResult :=
  if s.running then ⟨s, some "API is already running", []⟩
  else
    let inits := getInitializers s.initializers
    let p1 := initLoopInits inits
    match p1.2 with
    | some e => ⟨s, some e, p1.1⟩
    | none =>
      let p2 := initLoopServers s.servers
      ⟨s, p2.2, p1.1 ++ p2.1⟩

/-- `API.Start`: guarded by `running`; sets `running = true`, then starts
all initializers in priority order, then all servers in registration
order, aborting on the first error (no rollback: `running` stays set). -/
def ApiState.startAll (s : ApiState) : LifeResult :=
  if s.running then ⟨s, some "API is already running", []⟩
  else
    let s' := { s with running := true }
    let inits := getInitializers s.initializers
    let p1 := startLoopInits inits
    match p1.2 with
    | some e => ⟨s', some e, p1.1⟩
    | none =>
      let p2 := startLoopServers s.servers
      ⟨s', p2.2, p1.1 ++ p2.1⟩

/-- `API.Stop`: guarded by `running` (fails fast with no side effects —
in particular the shared context is **not** cancelled); otherwise clears
`running`, cancels the context, stops servers in reverse registration
order and then initializers in reverse priority order.  A component's
stop error is logged and swallowed, so `Stop` itself always returns nil
once past the guard. -/
def ApiState.stopAll (s : ApiState) : LifeResult :=
  if !s.running then ⟨s, some "API is not running", []⟩
  else
    let s' := { s with running := false, ctxCancelled := true }
    let evs : List LifeEvent :=
      s.servers.reverse.map (fun sv => .stopServer sv.name)
        ++ (getInitializers s.initializers).reverse.map (fun i => .stopInit i.name)
    ⟨s', none, evs⟩

/-! ## Dispatcher: `Connection.Act` and `Connection.logRequest`
(`internal/api/middleware.go`) -/

/-- ANSI escape prelude of the colours used by `logRequest`. -/
def colorBlue : String := "\x1b[34m"

def colorMagenta : String := "\x1b[35m"

def colorGray : String := "\x1b[90m"

def colorReset : String := "\x1b[0m"

/-- Modelled from the spec: the colour helper `Logger.ColorizeIf` of the
`util` logger is called by `logRequest` but its source file is not under
`src/` (only `util/logger.go` without it is).  Per the spec's collaborator
contract the logger is "a structured logger sink accepting leveled,
formattable lines"; `ColorizeIf(text, color, flag)` wraps `text` in the
ANSI `color` escape when the logger's `Colorize` configuration is on and
returns it unchanged otherwise (the extra flag does not change whether
`text` itself appears in the output and is ignored here). -/
def colorizeIf (colorize : Bool) (s : String) (color : String) (_flag : Bool) : String :=
  if colorize then color ++ s ++ colorReset else s

/-- `Connection.logRequest`: formats the one structured line
`"%s %s (%dms)%s %s%s%s %s"` with the status tag, the action name (or
"unknown"), the elapsed milliseconds, the bracketed method, the connection
identifier, the parenthesised url, the error text, and the serialized
parameters. -/
def logRequest (colorize : Bool) (c : Connection) (status : String) (actionName : String)
    (durationMs : Nat) (method : String) (url : String)
    (params : Option (List (String × JVal))) (err : Option String) : String :=
  let statusTag :=
    if status = "OK" then colorizeIf colorize "[ACTION:OK]" colorBlue true
    else colorizeIf colorize "[ACTION:ERROR]" colorMagenta true
  let shownName := if actionName = "" then "unknown" else actionName
  let paramsJSON :=
    match params with
    | none => "\x7b\x7d"
    | some ps => colorizeIf colorize (marshalObj ps) colorGray false
  let errorMsg := match err with | none => "" | some e => " " ++ e
  let methodStr := if method = "" then "" else " [" ++ method ++ "]"
  let urlStr := if url = "" then "" else " (" ++ url ++ ")"
  statusTag ++ " " ++ shownName ++ " (" ++ toString durationMs ++ "ms)" ++ methodStr
    ++ " " ++ c.identifier ++ urlStr ++ errorMsg ++ " " ++ paramsJSON

/-- The `ActResult` returned by `Connection.Act` together with the log
lines emitted during the call (the deferred `logRequest`). -/
structure ActOutcome where
  response : Option JVal
  error : Option String
  logs : List String

/-- `Connection.Act`: look the action up (absent → "action not found"
error), run it, and — via the deferred `logRequest` — emit exactly one
structured log line whatever the outcome.  `elapsedMs` is the oracle for
`time.Since(startTime).Milliseconds()`. -/
def act (colorize : Bool) (actions : List (String × RegAction)) (c : Connection)
    (actionName : String) (params : Option (List (String × JVal)))
    (method url : String) (elapsedMs : Nat) : ActOutcome :=
  match getAction actions actionName with
  | none =>
    let e := "action not found: " ++ actionName
    ⟨none, some e, [logRequest colorize c "ERROR" actionName elapsedMs method url params (some e)]⟩
  | some a =>
    match a.run params c with
    | .error e =>
      ⟨none, some e, [logRequest colorize c "ERROR" actionName elapsedMs method url params (some e)]⟩
    | .ok v =>
      ⟨some v, none, [logRequest colorize c "OK" actionName elapsedMs method url params none]⟩

/-! ## Web server action handlers (`internal/servers/web.go`)

`executeAction` runs the action directly (its validation and middleware
steps are `TODO` in the source); neither `handleHTTP` nor
`handleWebSocketAction` calls `Connection.Act`, so no `[ACTION:*]` log
line is produced on these paths.  Each model returns the emitted reply
envelope(s) together with the dispatcher log lines produced (always `[]`
in the source). -/

/-- `WebServer.executeAction`: `response, err := action.Run(ctx, params, conn)`. -/
def executeAction (a : RegAction) (params : List (String × JVal)) (conn : Connection) :
    Except String JVal :=
  a.run (some params) conn

/-- A WebSocket reply envelope as built by `sendWebSocketSuccess` /
`sendWebSocketError` (keys in Go's sorted marshal order). -/
def wsSuccessEnvelope (data : JVal) : JVal :=
  .obj [("data", data), ("success", .bool true), ("type", .str "response")]

def wsErrorEnvelope (code message : String) : JVal :=
  .obj [("error", .obj [("code", .str code), ("message", .str message)]),
        ("success", .bool false), ("type", .str "response")]

/-- Outcome of `handleWebSocketAction`: the frames pushed onto the
connection's outbound queue and the `[ACTION:*]` log lines emitted. -/
structure WsActOutcome where
  outbound : List JVal
  actLogs : List String

/-- `WebServer.handleWebSocketAction`: read `msg["action"]`, look the
action up via `api.GetAction`, default `msg["params"]` to an empty map,
call `executeAction`, and push a response envelope.  It never calls
`Connection.Act` and emits no structured dispatch log line. -/
def handleWebSocketAction (actions : List (String × RegAction)) (conn : Connection)
    (msg : List (String × JVal)) : WsActOutcome :=
  match mapFind "action" msg with
  | some (.str actionName) =>
    (match getAction actions actionName with
     | none => ⟨[wsErrorEnvelope "ACTION_NOT_FOUND" ("Action not found: " ++ actionName)], []⟩
     | some a =>
       let params := match mapFind "params" msg with
         | some (.obj ps) => ps
         | _ => []
       match executeAction a params conn with
       | .error e => ⟨[wsErrorEnvelope "INTERNAL_ERROR" e], []⟩
       | .ok v => ⟨[wsSuccessEnvelope v], []⟩)
  | _ => ⟨[wsErrorEnvelope "INVALID_MESSAGE" "Action name is required"], []⟩

/-- An HTTP response as built by `sendSuccess` / `sendError`. -/
inductive HttpReply where
  | ok (body : JVal)
  | err (status : Nat) (code message : String)
deriving Repr

/-- Outcome of the dispatch tail of `handleHTTP`. -/
structure HttpActOutcome where
  reply : HttpReply
  actLogs : List String

/-- The dispatch tail of `WebServer.handleHTTP` (web.go lines 233-249),
after `matchRoute`/`parseRequest` have produced the action and the merged
parameter map: create a fresh `http` connection, call `executeAction`,
and send the success or error JSON envelope.  Like the WebSocket path it
never calls `Connection.Act` and emits no structured dispatch log line. -/
def handleHTTPDispatch (a : RegAction) (allParams : List (String × JVal))
    (remoteAddr connId : String) : HttpActOutcome :=
  let conn := newConnection "http" remoteAddr connId
  match executeAction a allParams conn with
  | .error e => ⟨.err 500 "INTERNAL_ERROR" e, []⟩
  | .ok v => ⟨.ok (.obj [("data", v), ("success", .bool true)]), []⟩

/-! ## WebSocket connection removal (`WebServer.removeConnection`)

State of one tracked `wsConnection` and the connection table, as
`removeConnection` touches them: the table entry, whether the buffered
`send` channel has been closed, and whether the socket has been closed.
In Go, `close` of an already-closed channel panics; the panic is the
`none` outcome. -/

structure RemoveState where
  tableIds : List String
  sendClosed : Bool
  sockClosed : Bool
deriving DecidableEq, Repr

/-- `WebServer.removeConnection`: delete the id from the table, then
`close(wsConn.send)` — which panics (`none`) when the channel is already
closed — then close the socket. -/
def removeConnection (s : RemoveState) (id : String) : Option RemoveState :=
  let table' := s.tableIds.filter (fun x => x ≠ id)
  if s.sendClosed then none
  else some ⟨table', true, true⟩

/-! ## Broadcast engine (`WebServer.Broadcast` / `handleBroadcasts`) -/

/-- Capacity of each connection's buffered `send` channel. -/
def sendCap : Nat := 256

/-- Capacity of the shared buffered `broadcast` channel. -/
def broadcastCap : Nat := 256

/-- The broadcast envelope `{type:"broadcast", channel, data}` built by
`Broadcast` (keys in Go's sorted marshal order). -/
def broadcastEnvelope (channel : String) (data : JVal) : JVal :=
  .obj [("channel", .str channel), ("data", data), ("type", .str "broadcast")]

/-- The server state `Broadcast` reads: the contents of the shared
bounded broadcast queue and whether the shutdown context is done. -/
structure WebState where
  broadcastQ : List (String × String)
  ctxDone : Bool

/-- Possible results of one `Broadcast` call. -/
inductive BroadcastOutcome where
  | enqueued (q' : List (String × String))
  | errShuttingDown
  | errFull
deriving Repr

/-- `WebServer.Broadcast`: serialize the envelope, then a `select` with a
non-blocking send on the broadcast channel, a `ctx.Done()` case returning
"server is shutting down", and a `default` case returning "broadcast
channel is full".  The relation captures Go's `select` semantics: a ready
communication case may be chosen (nondeterministically when several are
ready); `default` fires only when no case is ready. -/
inductive broadcastStep (s : WebState) (channel : String) (data : JVal) :
    BroadcastOutcome → Prop where
  | enqueue :
      s.broadcastQ.length < broadcastCap →
      broadcastStep s channel data
        (.enqueued (s.broadcastQ ++ [(channel, (broadcastEnvelope channel data).marshal)]))
  | shuttingDown :
      s.ctxDone = true →
      broadcastStep s channel data .errShuttingDown
  | full :
      broadcastCap ≤ s.broadcastQ.length →
      s.ctxDone = false →
      broadcastStep s channel data .errFull

/-- One tracked WebSocket connection as the fan-out worker sees it. -/
structure FanConn where
  id : String
  subscriptions : List (String × Bool)
  send : List String
deriving DecidableEq, Repr

/-- The per-connection step of the fan-out loop in `handleBroadcasts`:
if the connection is subscribed, a non-blocking push onto its `send`
queue; when that queue is full the message is dropped for this
connection only (the `default` branch logs a warning). -/
def deliverOne (channel data : String) (c : FanConn) : FanConn :=
  if mapGetBool channel c.subscriptions then
    if c.send.length < sendCap then { c with send := c.send ++ [data] } else c
  else c

/-- The fan-out loop of `handleBroadcasts` over the connection table. -/
def fanOut (conns : List FanConn) (channel data : String) : List FanConn :=
  conns.map (deliverOne channel data)

/-! ## Route compiler and matcher (`compileRoute` / `matchRoute`, web.go)

`compileRoute` turns a pattern into the regex
`"^" + escape(pattern[:name ↦ ([^/]+)]) + "$"` (only `/` is escaped) and
the list of `:name` token names, and `matchRoute` runs
`regexp.FindStringSubmatch` on the path.  The embedding compiles the
pattern to a small regex-item list and gives those items Go's
leftmost-first, greedy matching semantics.  Patterns are supported when
every non-token character is a word character (`\w`), `-`, `/`, `.` or a
bare `:`; other characters are regex metacharacters whose compiled
meaning (or compile error) is outside the modelled fragment, and
compilation returns `none` for them. -/

/-- A compiled regex item: the begin/end anchors added by `compileRoute`,
a literal character, Go's `.` (any character except newline — `.` in the
pattern is *not* escaped by `compileRoute`), and the capturing group
`([^/]+)` that replaces a `:name` token. -/
inductive RItem where
  | bol
  | eol
  | lit (c : Char)
  | dot
  | grp
deriving DecidableEq, Repr

/-- Go's `\w`: `[0-9A-Za-z_]`. -/
def wordChar (c : Char) : Bool :=
  c.isAlphanum || c = '_'

/-- Is `c` a supported non-token pattern character, compiled to `.lit c`? -/
def plainChar (c : Char) : Bool :=
  c = '/' || c = '-' || wordChar c

mutual

/-- The body of `compileRoute` on the pattern text: each `:name` token
(`:` followed by a maximal nonempty `\w+` run, exactly the matches of
`:(\w+)`) becomes a capturing `([^/]+)` group and its name is appended to
`paramNames`; a bare `:` and the supported plain characters stay literal
(`\/` in the produced regex means a literal `/`); `.` stays the regex
any-character; everything else is outside the fragment (`none`). -/
def compileCore : List Char → Option (List RItem × List String)
  | [] => some ([], [])
  | ':' :: cs =>
    match cs with
    | [] => some ([.lit ':'], [])
    | c :: cs' =>
      if wordChar c then compileTok [c] cs'
      else (compileCore (c :: cs')).map (fun p => (.lit ':' :: p.1, p.2))
  | c :: cs =>
    if c = '.' then (compileCore cs).map (fun p => (.dot :: p.1, p.2))
    else if plainChar c then (compileCore cs).map (fun p => (.lit c :: p.1, p.2))
    else none
termination_by l => (l.length, 0)

/-- Consume the rest of a `:name` token (`acc` holds its characters so
far, in order), then emit the capturing group and record the name. -/
def compileTok (acc : List Char) : List Char → Option (List RItem × List String)
  | [] => some ([.grp], [String.mk acc])
  | c :: cs =>
    if wordChar c then compileTok (acc ++ [c]) cs
    else (compileCore (c :: cs)).map (fun p => (.grp :: p.1, String.mk acc :: p.2))
termination_by l => (l.length, 1)

end

/-- A compiled route: the anchored item list and the `:name` token names
in pattern order. -/
structure CompiledRoute where
  items : List RItem
  paramNames : List String
deriving DecidableEq, Repr

/-- `compileRoute`: anchor the compiled body at both ends (`"^"+…+"$"`). -/
def compileRoute (pattern : String) : Option CompiledRoute :=
  (compileCore pattern.data).map (fun p => ⟨.bol :: p.1 ++ [.eol], p.2⟩)

/-- The longest prefix of `s` that `[^/]` can consume. -/
def maxRun (s : List Char) : Nat :=
  (s.takeWhile (fun c => c ≠ '/')).length

mutual

/-- Go regexp matching (leftmost-first, greedy, as Go's `regexp` package
guarantees for submatches) of an item list against a suffix of the
subject starting at the current position.  `atStart` tells whether that
position is the beginning of the subject (for `^`).  On success returns
the capture list and the *unconsumed remainder* of the subject (a match
need not reach the end of the subject unless `$` requires it). -/
def matP : List RItem → List Char → Bool → Option (List (List Char) × List Char)
  | [], s, _ => some ([], s)
  | .bol :: rest, s, atStart => if atStart then matP rest s atStart else none
  | .eol :: rest, s, _ =>
    (match s with
     | [] => matP rest [] false
     | _ :: _ => none)
  | .lit c :: rest, s, _ =>
    (match s with
     | [] => none
     | d :: ds => if d = c then matP rest ds false else none)
  | .dot :: rest, s, _ =>
    (match s with
     | [] => none
     | d :: ds => if d = '\n' then none else matP rest ds false)
  | .grp :: rest, s, _ => tryGrp rest s (maxRun s)
termination_by items _ _ => (items.length, 0, 0)

/-- Greedy backtracking for `([^/]+)`: try capturing the `k` longest
admissible prefixes (no `/`, nonempty), longest first. -/
def tryGrp (rest : List RItem) (s : List Char) : Nat → Option (List (List Char) × List Char)
  | 0 => none
  | k + 1 =>
    match matP rest (s.drop (k + 1)) false with
    | some p => some ((s.take (k + 1)) :: p.1, p.2)
    | none => tryGrp rest s k
termination_by k => (rest.length, 1, k)

end

/-- `regexp.FindStringSubmatch`: try each start offset from the left; on
success return the offset, the captures, and the unconsumed suffix. -/
def findAux (items : List RItem) (off : Nat) :
    List Char → Option (Nat × List (List Char) × List Char)
  | [] =>
    (match matP items [] (off = 0) with
     | some p => some (off, p.1, p.2)
     | none => none)
  | c :: s' =>
    (match matP items (c :: s') (off = 0) with
     | some p => some (off, p.1, p.2)
     | none => findAux items (off + 1) s')

/-- `FindStringSubmatch` on the whole subject. -/
def findSubmatch (items : List RItem) (s : List Char) :
    Option (Nat × List (List Char) × List Char) :=
  findAux items 0 s

/-- The parameter-extraction loop of `matchRoute`:
`for i, name := range paramNames { params[name] = matches[i+1] }`
building a Go `map[string]string`. -/
def extractParams (paramNames : List String) (caps : List (List Char)) :
    List (String × String) :=
  (paramNames.zip caps).foldl (fun m p => mapSet p.1 (String.mk p.2) m) []

/-- One entry of `WebServer.routes`. -/
structure RouteEntry where
  route : CompiledRoute
  method : String
  actionName : String

/-- `WebServer.matchRoute`: first route, in registration order, whose
method matches and whose compiled pattern finds a match on the path;
on a hit, extract the path parameters. -/
def matchRoute (routes : List RouteEntry) (method path : String) :
    Option (String × List (String × String)) :=
  match routes with
  | [] => none
  | r :: rs =>
    if r.method = method then
      match findSubmatch r.route.items path.data with
      | some p => some (r.actionName, extractParams r.route.paramNames p.2.1)
      | none => matchRoute rs method path
    else matchRoute rs method path

/-- The number of capturing groups in an item list. -/
def countGrp (items : List RItem) : Nat :=
  (items.filter (fun i => i = RItem.grp)).length

/-- Reconstruction of the exact subject text a dot-free item list
consumed, from its capture list: literals contribute themselves and each
group contributes its capture.  `none` when the shape does not fit (a
`.dot` item, or a capture-count mismatch). -/
def substItems : List RItem → List (List Char) → Option (List Char)
  | [], [] => some []
  | [], _ :: _ => none
  | .bol :: r, cs => substItems r cs
  | .eol :: r, cs => substItems r cs
  | .lit c :: r, cs => (substItems r cs).map (fun t => c :: t)
  | .dot :: _, _ => none
  | .grp :: r, cap :: cs => (substItems r cs).map (fun t => cap ++ t)
  | .grp :: _, [] => none

/-- What a successful (sub)match guarantees: one capture per group, each
capture a nonempty slash-free run, the leftover no longer than the
subject, an `$` anchor forcing the leftover empty, and — for dot-free
item lists — the consumed text being exactly the literals with each
group replaced by its capture. -/
def matchedSpec (items : List RItem) (s : List Char) (caps : List (List Char))
    (left : List Char) : Prop :=
  caps.length = countGrp items ∧
  (∀ cap ∈ caps, cap ≠ [] ∧ '/' ∉ cap) ∧
  left.length ≤ s.length ∧
  (RItem.eol ∈ items → left = []) ∧
  (RItem.dot ∉ items → ∃ t, substItems items caps = some t ∧ s = t ++ left)

/-! ## Concrete instances used to settle individual claims -/

/-- Substring containment: `needle` occurs contiguously in `hay`. -/
def strContains (hay needle : String) : Prop :=
  ∃ l r, hay = l ++ (needle ++ r)

/-- A concrete action in the spirit of `actions/echo.go`: echoes its
parameter map back. -/
def echoAction : RegAction :=
  ⟨"echo", some ("/echo", "GET"),
   fun ps _ => .ok (.obj [("received", .obj (ps.getD []))])⟩

/-- A registry holding just `echoAction`. -/
def echoRegistry : List (String × RegAction) :=
  (registerAction [] echoAction).1

/-- A concrete WebSocket-side connection. -/
def wsConn1 : Connection := newConnection "websocket" "127.0.0.1" "c1"

/-- Two concrete servers registered in the order alpha, beta. -/
def cexServerA : ServerC := ⟨"alpha", none, none, none⟩

def cexServerB : ServerC := ⟨"beta", none, none, none⟩

/-- An orchestrator with the two servers and no initializers. -/
def cexApiC5 : ApiState := ⟨[], [cexServerA, cexServerB], [], false, false⟩

/-- An arbitrary numeric priority assignment for the two servers (the Go
`Server` interface itself has no priority): alpha gets 2, beta gets 1. -/
def cexPriority (v : ServerC) : Int :=
  if v.name = "alpha" then 2 else 1

/-- The servers of `cexApiC5` in the order `Start` invokes them. -/
def cexStartedServers : List String :=
  cexApiC5.startAll.events.filterMap
    (fun e => match e with | .startServer n => some n | _ => none)

/-- The compiled form of the route pattern "/u/:id". -/
def uidRoute : CompiledRoute :=
  ⟨[.bol, .lit '/', .lit 'u', .lit '/', .grp, .eol], ["id"]⟩

/-! ## Association-map lemmas -/

theorem find?_filter_ne {α : Type} (k : String) (m : List (String × α)) :
    (m.filter (fun kv => kv.1 ≠ k)).find? (fun kv => kv.1 = k) = none := by
  rw [List.find?_eq_none]
  intro x hx
  have hmem := List.of_mem_filter hx
  simp only [ne_eq, decide_not, Bool.not_eq_true', decide_eq_false_iff_not] at hmem
  simpa using hmem

theorem mapFind_set_self {α : Type} (k : String) (v : α) (m : List (String × α)) :
    mapFind k (mapSet k v m) = some v := by
  unfold mapFind mapSet
  rw [List.find?_append, find?_filter_ne]
  simp

theorem find?_filter_of_ne {α : Type} {d k : String} (h : d ≠ k) (m : List (String × α)) :
    (m.filter (fun kv => kv.1 ≠ k)).find? (fun kv => kv.1 = d)
      = m.find? (fun kv => kv.1 = d) := by
  induction m with
  | nil => rfl
  | cons x xs ih =>
    by_cases hk : x.1 = k
    · have hd : ¬(x.1 = d) := by
        rw [hk]
        exact Ne.symm h
      rw [List.filter_cons_of_neg (by simp [hk]), List.find?_cons_of_neg _ (by simp [hd])]
      exact ih
    · rw [List.filter_cons_of_pos (by simp [hk])]
      by_cases hd : x.1 = d
      · rw [List.find?_cons_of_pos _ (by simp [hd]), List.find?_cons_of_pos _ (by simp [hd])]
      · rw [List.find?_cons_of_neg _ (by simp [hd]), List.find?_cons_of_neg _ (by simp [hd])]
        exact ih

theorem mapFind_set_ne {α : Type} {d k : String} (h : d ≠ k) (v : α) (m : List (String × α)) :
    mapFind d (mapSet k v m) = mapFind d m := by
  unfold mapFind mapSet
  rw [List.find?_append, find?_filter_of_ne h]
  cases hf : m.find? (fun kv => kv.1 = d) with
  | none => simp [List.find?, Ne.symm h]
  | some x => simp

theorem mapFind_delete_self {α : Type} (k : String) (m : List (String × α)) :
    mapFind k (mapDelete k m) = none := by
  unfold mapFind mapDelete
  rw [find?_filter_ne]
  rfl

theorem mapFind_delete_ne {α : Type} {d k : String} (h : d ≠ k) (m : List (String × α)) :
    mapFind d (mapDelete k m) = mapFind d m := by
  unfold mapFind mapDelete
  rw [find?_filter_of_ne h]

theorem mapSet_set_self {α : Type} (k : String) (v w : α) (m : List (String × α)) :
    mapSet k v (mapSet k w m) = mapSet k v m := by
  unfold mapSet
  rw [List.filter_append, List.filter_filter]
  simp

theorem mapDelete_of_absent {α : Type} {k : String} {m : List (String × α)}
    (h : ∀ kv ∈ m, kv.1 ≠ k) : mapDelete k m = m := by
  unfold mapDelete
  rw [List.filter_eq_self]
  intro kv hkv
  simpa using h kv hkv

/-! ## C10: subscription-set laws -/

/-- C10: the subscription set obeys the stated laws: after `Subscribe(c)`
the connection is subscribed to `c`; after `Unsubscribe(c)` it is not;
subscribing twice equals subscribing once; unsubscribing a channel that
was never subscribed is a no-op; and both operations leave the
subscription status of every other channel `d ≠ c` unchanged. -/
theorem claim_C10_subscription_laws (conn : Connection) (c d : String) (hne : c ≠ d) :
    (conn.subscribe c).isSubscribed c = true ∧
    (conn.unsubscribe c).isSubscribed c = false ∧
    (conn.subscribe c).subscribe c = conn.subscribe c ∧
    ((∀ kv ∈ conn.subscriptions, kv.1 ≠ c) → conn.unsubscribe c = conn) ∧
    (conn.subscribe c).isSubscribed d = conn.isSubscribed d ∧
    (conn.unsubscribe c).isSubscribed d = conn.isSubscribed d := by
  refine ⟨?_, ?_, ?_, ?_, ?_, ?_⟩
  · simp [Connection.subscribe, Connection.isSubscribed, mapGetBool, mapFind_set_self]
  · simp [Connection.unsubscribe, Connection.isSubscribed, mapGetBool, mapFind_delete_self]
  · simp [Connection.subscribe, mapSet_set_self]
  · intro h
    simp [Connection.unsubscribe, mapDelete_of_absent h]
  · simp [Connection.subscribe, Connection.isSubscribed, mapGetBool,
      mapFind_set_ne (Ne.symm hne)]
  · simp [Connection.unsubscribe, Connection.isSubscribed, mapGetBool,
      mapFind_delete_ne (Ne.symm hne)]

/-- Witness for C10 at the concrete channels "room" and "news" on a fresh
WebSocket connection. -/
theorem claim_C10_subscription_laws_witness :
    ((wsConn1.subscribe "room").isSubscribed "room" = true ∧
     (wsConn1.unsubscribe "room").isSubscribed "room" = false ∧
     (wsConn1.subscribe "room").subscribe "room" = wsConn1.subscribe "room" ∧
     ((∀ kv ∈ wsConn1.subscriptions, kv.1 ≠ "room") → wsConn1.unsubscribe "room" = wsConn1) ∧
     (wsConn1.subscribe "room").isSubscribed "news" = wsConn1.isSubscribed "news" ∧
     (wsConn1.unsubscribe "room").isSubscribed "news" = wsConn1.isSubscribed "news") :=
  claim_C10_subscription_laws wsConn1 "room" "news" (by decide)

/-! ## C3: duplicate action registration -/

/-- C3: when an action named `a.name` is already registered (`GetAction`
returns `a₀`), a second `RegisterAction` with an action of the same name
returns an error and leaves the registry unchanged: the returned registry
is structurally identical, `GetAction` still yields `a₀`, and every other
lookup is untouched. -/
theorem claim_C3_duplicate_registration (m : List (String × RegAction))
    (a₀ a' : RegAction) (h : getAction m a'.name = some a₀) :
    (registerAction m a').1 = m ∧
    (registerAction m a').2 = some ("action '" ++ a'.name ++ "' is already registered") ∧
    getAction (registerAction m a').1 a'.name = some a₀ ∧
    (∀ n, getAction (registerAction m a').1 n = getAction m n) := by
  have hsome : (mapFind a'.name m).isSome := by
    unfold getAction at h
    simp [h]
  refine ⟨?_, ?_, ?_, ?_⟩
  · simp [registerAction, hsome]
  · simp [registerAction, hsome]
  · simp [registerAction, hsome, h]
  · intro n
    simp [registerAction, hsome]

/-- Witness for C3: registering `echoAction` on top of `echoRegistry`
(which already holds it) fails and preserves the registry. -/
theorem claim_C3_duplicate_registration_witness :
    (registerAction echoRegistry echoAction).1 = echoRegistry ∧
    (registerAction echoRegistry echoAction).2 =
      some ("action '" ++ echoAction.name ++ "' is already registered") ∧
    getAction (registerAction echoRegistry echoAction).1 echoAction.name = some echoAction ∧
    (∀ n, getAction (registerAction echoRegistry echoAction).1 n = getAction echoRegistry n) :=
  claim_C3_duplicate_registration echoRegistry echoAction echoAction rfl

/-! ## C4: lifecycle guards fail fast with no side effects -/

theorem startAll_state (s : ApiState) (h : s.running = false) :
    s.startAll.state = { s with running := true } := by
  unfold ApiState.startAll
  rw [if_neg (by simp [h])]
  cases hres : (startLoopInits (getInitializers s.initializers)).2 with
  | some e => simp [hres]
  | none => simp [hres]

/-- C4: `Stop()` on a non-running orchestrator returns the "API is not
running" error while performing no side effects — the state (including
the shared cancellation context) is unchanged and no component is
invoked; and after a `Start()` from a non-running state the orchestrator
is running, so a second `Start()` returns the "API is already running"
error with no component invoked and no state change. -/
theorem claim_C4_lifecycle_guards (s : ApiState) (h : s.running = false) :
    s.stopAll = ⟨s, some "API is not running", []⟩ ∧
    s.startAll.state.running = true ∧
    s.startAll.state.startAll = ⟨s.startAll.state, some "API is already running", []⟩ := by
  refine ⟨?_, ?_, ?_⟩
  · unfold ApiState.stopAll
    rw [if_pos (by simp [h])]
  · rw [startAll_state s h]
  · rw [startAll_state s h]
    unfold ApiState.startAll
    rw [if_pos rfl]

/-- Witness for C4 on the concrete orchestrator `cexApiC5` (not running). -/
theorem claim_C4_lifecycle_guards_witness :
    cexApiC5.stopAll = ⟨cexApiC5, some "API is not running", []⟩ ∧
    cexApiC5.startAll.state.running = true ∧
    cexApiC5.startAll.state.startAll
      = ⟨cexApiC5.startAll.state, some "API is already running", []⟩ :=
  claim_C4_lifecycle_guards cexApiC5 rfl

/-! ## C5: priority ordering of the lifecycle loops -/

theorem selectPass_min (x : InitializerC) (l : List InitializerC) :
    (selectPass x l).1.priority ≤ x.priority ∧
    ∀ z ∈ (selectPass x l).2, (selectPass x l).1.priority ≤ z.priority := by
  induction l generalizing x with
  | nil => exact ⟨le_refl _, by simp [selectPass]⟩
  | cons y ys ih =>
    by_cases hgt : x.priority > y.priority
    · have hy := ih y
      refine ⟨?_, ?_⟩
      · simp only [selectPass, if_pos hgt]
        exact le_trans hy.1 (le_of_lt hgt)
      · intro z hz
        simp only [selectPass, if_pos hgt] at hz ⊢
        rcases List.mem_cons.mp hz with hz | hz
        · subst hz
          exact le_trans hy.1 (le_of_lt hgt)
        · exact hy.2 z hz
    · have hx := ih x
      refine ⟨?_, ?_⟩
      · simp only [selectPass, if_neg hgt]
        exact hx.1
      · intro z hz
        simp only [selectPass, if_neg hgt] at hz ⊢
        rcases List.mem_cons.mp hz with hz | hz
        · subst hz
          exact le_trans hx.1 (le_of_not_lt hgt)
        · exact hx.2 z hz

theorem selectPass_perm (x : InitializerC) (l : List InitializerC) :
    List.Perm ((selectPass x l).1 :: (selectPass x l).2) (x :: l) := by
  induction l generalizing x with
  | nil => simp [selectPass]
  | cons y ys ih =>
    by_cases hgt : x.priority > y.priority
    · simp only [selectPass, if_pos hgt]
      have h1 : List.Perm ((selectPass y ys).1 :: x :: (selectPass y ys).2)
          (x :: (selectPass y ys).1 :: (selectPass y ys).2) :=
        List.Perm.swap x (selectPass y ys).1 (selectPass y ys).2
      exact h1.trans ((ih y).cons x)
    · simp only [selectPass, if_neg hgt]
      have h1 : List.Perm ((selectPass x ys).1 :: y :: (selectPass x ys).2)
          (y :: (selectPass x ys).1 :: (selectPass x ys).2) :=
        List.Perm.swap y (selectPass x ys).1 (selectPass x ys).2
      exact (h1.trans ((ih x).cons y)).trans (List.Perm.swap x y ys)

theorem selectPass_length (x : InitializerC) (l : List InitializerC) :
    (selectPass x l).2.length = l.length := by
  have := (selectPass_perm x l).length_eq
  simpa using this

theorem goSortAux_perm : ∀ (n : Nat) (l : List InitializerC), l.length ≤ n →
    List.Perm (goSortAux n l) l := by
  intro n
  induction n with
  | zero => intro l _; simp [goSortAux]
  | succ n ih =>
    intro l hl
    cases l with
    | nil => simp [goSortAux]
    | cons x xs =>
      simp only [goSortAux]
      have hlen : (selectPass x xs).2.length ≤ n := by
        rw [selectPass_length]
        simpa using hl
      exact ((ih _ hlen).cons _).trans (selectPass_perm x xs)

theorem goSortAux_sorted : ∀ (n : Nat) (l : List InitializerC), l.length ≤ n →
    List.Sorted (fun a b : InitializerC => a.priority ≤ b.priority) (goSortAux n l) := by
  intro n
  induction n with
  | zero =>
    intro l hl
    rw [Nat.le_zero] at hl
    rw [List.length_eq_zero] at hl
    subst hl
    simp [goSortAux]
  | succ n ih =>
    intro l hl
    cases l with
    | nil => simp [goSortAux]
    | cons x xs =>
      simp only [goSortAux]
      have hlen : (selectPass x xs).2.length ≤ n := by
        rw [selectPass_length]
        simpa using hl
      rw [List.sorted_cons]
      refine ⟨?_, ih _ hlen⟩
      intro b hb
      have hbmem : b ∈ (selectPass x xs).2 := (goSortAux_perm n _ hlen).mem_iff.mp hb
      exact (selectPass_min x xs).2 b hbmem

theorem getInitializers_sorted (l : List InitializerC) :
    List.Sorted (fun a b : InitializerC => a.priority ≤ b.priority) (getInitializers l) :=
  goSortAux_sorted l.length l (le_refl _)

theorem getInitializers_perm (l : List InitializerC) :
    List.Perm (getInitializers l) l :=
  goSortAux_perm l.length l (le_refl _)

theorem initLoopInits_all_ok {l : List InitializerC} (h : ∀ i ∈ l, i.initErr = none) :
    initLoopInits l = (l.map (fun i => LifeEvent.initInit i.name), none) := by
  induction l with
  | nil => rfl
  | cons x xs ih =>
    have hx : x.initErr = none := h x (List.mem_cons_self x xs)
    simp only [initLoopInits, hx, List.map_cons]
    rw [ih (fun i hi => h i (List.mem_cons_of_mem x hi))]

theorem initLoopServers_all_ok {l : List ServerC} (h : ∀ v ∈ l, v.initErr = none) :
    initLoopServers l = (l.map (fun v => LifeEvent.initServer v.name), none) := by
  induction l with
  | nil => rfl
  | cons x xs ih =>
    have hx : x.initErr = none := h x (List.mem_cons_self x xs)
    simp only [initLoopServers, hx, List.map_cons]
    rw [ih (fun v hv => h v (List.mem_cons_of_mem x hv))]

theorem startLoopInits_all_ok {l : List InitializerC} (h : ∀ i ∈ l, i.startErr = none) :
    startLoopInits l = (l.map (fun i => LifeEvent.startInit i.name), none) := by
  induction l with
  | nil => rfl
  | cons x xs ih =>
    have hx : x.startErr = none := h x (List.mem_cons_self x xs)
    simp only [startLoopInits, hx, List.map_cons]
    rw [ih (fun i hi => h i (List.mem_cons_of_mem x hi))]

theorem startLoopServers_all_ok {l : List ServerC} (h : ∀ v ∈ l, v.startErr = none) :
    startLoopServers l = (l.map (fun v => LifeEvent.startServer v.name), none) := by
  induction l with
  | nil => rfl
  | cons x xs ih =>
    have hx : x.startErr = none := h x (List.mem_cons_self x xs)
    simp only [startLoopServers, hx, List.map_cons]
    rw [ih (fun v hv => h v (List.mem_cons_of_mem x hv))]

/-- C5 (amended): initializers are sorted ascending by priority —
`Initialize`/`Start` invoke them in that order and `Stop` in the reverse
(descending) order.  Servers, however, carry no priority in the `Server`
interface: `Initialize`/`Start` invoke them in registration order (after
all initializers) and `Stop` in reverse registration order (before the
initializers are stopped in reverse). -/
theorem claim_C5_ordering_amended (s : ApiState) (hrun : s.running = false)
    (hii : ∀ i ∈ s.initializers, i.initErr = none)
    (his : ∀ i ∈ s.initializers, i.startErr = none)
    (hvi : ∀ v ∈ s.servers, v.initErr = none)
    (hvs : ∀ v ∈ s.servers, v.startErr = none) :
    List.Sorted (fun a b : InitializerC => a.priority ≤ b.priority)
      (getInitializers s.initializers) ∧
    List.Perm (getInitializers s.initializers) s.initializers ∧
    s.initAll.events = (getInitializers s.initializers).map (fun i => LifeEvent.initInit i.name)
      ++ s.servers.map (fun v => LifeEvent.initServer v.name) ∧
    s.startAll.events = (getInitializers s.initializers).map (fun i => LifeEvent.startInit i.name)
      ++ s.servers.map (fun v => LifeEvent.startServer v.name) ∧
    s.startAll.state.stopAll.events
      = s.servers.reverse.map (fun v => LifeEvent.stopServer v.name)
        ++ ((getInitializers s.initializers).map (fun i => LifeEvent.stopInit i.name)).reverse ∧
    List.Sorted (fun a b : InitializerC => b.priority ≤ a.priority)
      ((getInitializers s.initializers).reverse) := by
  have hii' : ∀ i ∈ getInitializers s.initializers, i.initErr = none :=
    fun i hi => hii i ((getInitializers_perm s.initializers).mem_iff.mp hi)
  have his' : ∀ i ∈ getInitializers s.initializers, i.startErr = none :=
    fun i hi => his i ((getInitializers_perm s.initializers).mem_iff.mp hi)
  refine ⟨getInitializers_sorted _, getInitializers_perm _, ?_, ?_, ?_, ?_⟩
  · unfold ApiState.initAll
    rw [if_neg (by simp [hrun])]
    simp [initLoopInits_all_ok hii', initLoopServers_all_ok hvi]
  · unfold ApiState.startAll
    rw [if_neg (by simp [hrun])]
    simp [startLoopInits_all_ok his', startLoopServers_all_ok hvs]
  · rw [startAll_state s hrun]
    unfold ApiState.stopAll
    rw [if_neg (by simp)]
    simp [List.map_reverse]
  · exact (List.pairwise_reverse).mpr (getInitializers_sorted _)

/-- Witness for C5 (amended) on a concrete orchestrator with three
initializers of priorities 10, 5, 15 and the two servers of `cexApiC5`. -/
theorem claim_C5_ordering_amended_witness :
    (let s : ApiState :=
      ⟨[], [cexServerA, cexServerB],
       [⟨"i1", 10, none, none, none⟩, ⟨"i2", 5, none, none, none⟩,
        ⟨"i3", 15, none, none, none⟩], false, false⟩
     List.Sorted (fun a b : InitializerC => a.priority ≤ b.priority)
        (getInitializers s.initializers) ∧
     List.Perm (getInitializers s.initializers) s.initializers ∧
     s.initAll.events = (getInitializers s.initializers).map (fun i => LifeEvent.initInit i.name)
       ++ s.servers.map (fun v => LifeEvent.initServer v.name) ∧
     s.startAll.events = (getInitializers s.initializers).map (fun i => LifeEvent.startInit i.name)
       ++ s.servers.map (fun v => LifeEvent.startServer v.name) ∧
     s.startAll.state.stopAll.events
       = s.servers.reverse.map (fun v => LifeEvent.stopServer v.name)
         ++ ((getInitializers s.initializers).map (fun i => LifeEvent.stopInit i.name)).reverse ∧
     List.Sorted (fun a b : InitializerC => b.priority ≤ a.priority)
       ((getInitializers s.initializers).reverse)) :=
  claim_C5_ordering_amended _ rfl (by decide) (by decide) (by decide) (by decide)

/-- C5 counterexample for the claim as stated: in `cexApiC5` the two
servers are invoked by `Start` in registration order (alpha before beta)
even though for the priority assignment `cexPriority` alpha's number (2)
is greater than beta's (1) — the invocation order is not ascending in
priority, because Go's `Server` interface has no priority at all. -/
theorem claim_C5_counterexample :
    cexStartedServers = ["alpha", "beta"] ∧
    ¬ List.Sorted (fun a b : Int => a ≤ b)
        ([cexServerA, cexServerB].map cexPriority) := by
  constructor
  · rfl
  · decide

/-! ## C6: exactly one structured log line per dispatch -/

theorem strContains.refl (s : String) : strContains s s :=
  ⟨"", "", by simp⟩

theorem strContains.appendL {a n : String} (h : strContains a n) (b : String) :
    strContains (a ++ b) n := by
  obtain ⟨l, r, hlr⟩ := h
  exact ⟨l, r ++ b, by rw [hlr, String.append_assoc, String.append_assoc]⟩

theorem strContains.appendR {b n : String} (h : strContains b n) (a : String) :
    strContains (a ++ b) n := by
  obtain ⟨l, r, hlr⟩ := h
  exact ⟨a ++ l, r, by rw [hlr, String.append_assoc]⟩

theorem strContains.concat2 (x a b : String) : strContains ((x ++ a) ++ b) (a ++ b) :=
  ⟨x, "", by rw [String.append_assoc]; simp⟩

theorem strContains_empty (hay : String) : strContains hay "" :=
  ⟨hay, "", by simp⟩

/-- Every field of interest occurs in the single line `logRequest` formats. -/
theorem logRequest_contains (colorize : Bool) (c : Connection) (status actionName : String)
    (durationMs : Nat) (method url : String) (params : Option (List (String × JVal)))
    (err : Option String) :
    (status = "OK" →
      strContains (logRequest colorize c status actionName durationMs method url params err)
        "[ACTION:OK]") ∧
    (status = "ERROR" →
      strContains (logRequest colorize c status actionName durationMs method url params err)
        "[ACTION:ERROR]") ∧
    strContains (logRequest colorize c status actionName durationMs method url params err)
      (if actionName = "" then "unknown" else actionName) ∧
    strContains (logRequest colorize c status actionName durationMs method url params err)
      (toString durationMs ++ "ms)") ∧
    strContains (logRequest colorize c status actionName durationMs method url params err)
      method ∧
    strContains (logRequest colorize c status actionName durationMs method url params err)
      c.identifier ∧
    strContains (logRequest colorize c status actionName durationMs method url params err)
      url ∧
    (∀ ps, params = some ps →
      strContains (logRequest colorize c status actionName durationMs method url params err)
        (marshalObj ps)) ∧
    (∀ e, err = some e →
      strContains (logRequest colorize c status actionName durationMs method url params err)
        e) := by
  refine ⟨?_, ?_, ?_, ?_, ?_, ?_, ?_, ?_, ?_⟩
  · intro hs
    subst hs
    cases colorize <;> simp only [logRequest, colorizeIf, if_true, if_false, Bool.false_eq_true,
      reduceIte] <;>
      exact ((((((((((((by first
        | exact strContains.refl "[ACTION:OK]"
        | exact (strContains.appendL (strContains.appendR (strContains.refl "[ACTION:OK]")
            colorBlue) colorReset) :
        strContains _ "[ACTION:OK]").appendL _).appendL _).appendL _).appendL _).appendL
        _).appendL _).appendL _).appendL _).appendL _).appendL _).appendL _).appendL _
  · intro hs
    subst hs
    cases colorize <;> simp only [logRequest, colorizeIf, if_true, if_false, Bool.false_eq_true,
      reduceIte] <;>
      exact ((((((((((((by first
        | exact strContains.refl "[ACTION:ERROR]"
        | exact (strContains.appendL (strContains.appendR (strContains.refl "[ACTION:ERROR]")
            colorMagenta) colorReset) :
        strContains _ "[ACTION:ERROR]").appendL _).appendL _).appendL _).appendL _).appendL
        _).appendL _).appendL _).appendL _).appendL _).appendL _).appendL _).appendL _
  · simp only [logRequest]
    exact ((((((((((((strContains.refl _).appendR _).appendL _).appendL _).appendL _).appendL
      _).appendL _).appendL _).appendL _).appendL _).appendL _).appendL _)
  · simp only [logRequest]
    exact ((((((((strContains.concat2 _ _ _).appendL _).appendL _).appendL _).appendL
      _).appendL _).appendL _).appendL _)
  · by_cases hm : method = ""
    · subst hm
      exact strContains_empty _
    · simp only [logRequest, hm, reduceIte, if_neg]
      exact ((((((((strContains.appendL ((strContains.refl method).appendR _)
        "]").appendR _).appendL _).appendL _).appendL _).appendL _).appendL _).appendL _)
  · simp only [logRequest]
    exact (((((strContains.refl _).appendR _).appendL _).appendL _).appendL _).appendL _
  · by_cases hu : url = ""
    · subst hu
      exact strContains_empty _
    · simp only [logRequest, hu, reduceIte, if_neg]
      exact (((((strContains.appendL ((strContains.refl url).appendR _)
        ")").appendR _).appendL _).appendL _).appendL _)
  · intro ps hps
    subst hps
    cases colorize <;> simp only [logRequest, colorizeIf, if_true, if_false, Bool.false_eq_true,
      reduceIte] <;>
      exact (by first
        | exact strContains.refl (marshalObj ps)
        | exact strContains.appendL (strContains.appendR (strContains.refl (marshalObj ps))
            colorGray) colorReset :
        strContains _ (marshalObj ps)).appendR _
  · intro e he
    subst he
    simp only [logRequest]
    exact ((((strContains.refl e).appendR " ").appendR _).appendL _).appendL _

/-- C6: every call of `Connection.Act` emits exactly one structured log
line; when the action is absent the result is the "action not found"
error; and the emitted line contains the success/error tag, the action
name (or "unknown" when empty), the elapsed milliseconds, the transport
method, the connection identifier, the transport locator, the serialized
parameters, and the error text when there is an error. -/
theorem claim_C6_single_log_line (colorize : Bool) (actions : List (String × RegAction))
    (c : Connection) (actionName : String) (params : Option (List (String × JVal)))
    (method url : String) (elapsedMs : Nat) :
    (act colorize actions c actionName params method url elapsedMs).logs.length = 1 ∧
    (getAction actions actionName = none →
      (act colorize actions c actionName params method url elapsedMs).error
        = some ("action not found: " ++ actionName)) ∧
    (∀ line ∈ (act colorize actions c actionName params method url elapsedMs).logs,
      ((act colorize actions c actionName params method url elapsedMs).error = none →
        strContains line "[ACTION:OK]") ∧
      ((act colorize actions c actionName params method url elapsedMs).error ≠ none →
        strContains line "[ACTION:ERROR]") ∧
      strContains line (if actionName = "" then "unknown" else actionName) ∧
      strContains line (toString elapsedMs ++ "ms)") ∧
      strContains line method ∧
      strContains line c.identifier ∧
      strContains line url ∧
      (∀ ps, params = some ps → strContains line (marshalObj ps)) ∧
      (∀ e, (act colorize actions c actionName params method url elapsedMs).error = some e →
        strContains line e)) := by
  cases hga : getAction actions actionName with
  | none =>
    have h := logRequest_contains colorize c "ERROR" actionName elapsedMs method url params
      (some ("action not found: " ++ actionName))
    refine ⟨by simp [act, hga], by simp [act, hga], ?_⟩
    intro line hl
    simp only [act, hga, List.mem_singleton] at hl
    subst hl
    refine ⟨by simp [act, hga], fun _ => h.2.1 rfl, h.2.2.1, h.2.2.2.1, h.2.2.2.2.1,
      h.2.2.2.2.2.1, h.2.2.2.2.2.2.1, h.2.2.2.2.2.2.2.1, ?_⟩
    intro e he
    simp only [act, hga, Option.some_inj] at he
    subst he
    exact h.2.2.2.2.2.2.2.2 _ rfl
  | some a =>
    cases hrun : a.run params c with
    | error e =>
      have h := logRequest_contains colorize c "ERROR" actionName elapsedMs method url params
        (some e)
      refine ⟨by simp [act, hga, hrun], by simp [hga], ?_⟩
      intro line hl
      simp only [act, hga, hrun, List.mem_singleton] at hl
      subst hl
      refine ⟨by simp [act, hga, hrun], fun _ => h.2.1 rfl, h.2.2.1, h.2.2.2.1, h.2.2.2.2.1,
        h.2.2.2.2.2.1, h.2.2.2.2.2.2.1, h.2.2.2.2.2.2.2.1, ?_⟩
      intro e' he'
      simp only [act, hga, hrun, Option.some_inj] at he'
      subst he'
      exact h.2.2.2.2.2.2.2.2 _ rfl
    | ok v =>
      have h := logRequest_contains colorize c "OK" actionName elapsedMs method url params none
      refine ⟨by simp [act, hga, hrun], by simp [hga], ?_⟩
      intro line hl
      simp only [act, hga, hrun, List.mem_singleton] at hl
      subst hl
      refine ⟨fun _ => h.1 rfl, by simp [act, hga, hrun], h.2.2.1, h.2.2.2.1, h.2.2.2.2.1,
        h.2.2.2.2.2.1, h.2.2.2.2.2.2.1, h.2.2.2.2.2.2.2.1, ?_⟩
      intro e' he'
      simp [act, hga, hrun] at he'

/-- Witness for C6: dispatching `echo` over the echo registry with one
parameter emits exactly one line, and that line carries the OK tag. -/
theorem claim_C6_single_log_line_witness :
    (act false echoRegistry wsConn1 "echo" (some [("x", JVal.num 1)]) "WS" "/ws" 3).logs.length
      = 1 ∧
    ∀ line ∈ (act false echoRegistry wsConn1 "echo" (some [("x", JVal.num 1)]) "WS" "/ws" 3).logs,
      strContains line "[ACTION:OK]" ∧ strContains line (marshalObj [("x", JVal.num 1)]) := by
  have h := claim_C6_single_log_line false echoRegistry wsConn1 "echo"
    (some [("x", JVal.num 1)]) "WS" "/ws" 3
  refine ⟨h.1, fun line hl => ⟨(h.2.2 line hl).1 (by rfl), ?_⟩⟩
  exact (h.2.2 line hl).2.2.2.2.2.2.2.1 [("x", JVal.num 1)] rfl

/-! ## C2: WebSocket connection removal is not idempotent (code bug)

The spec requires removal to be idempotent ("removal must be idempotent";
"removing an already-removed WebSocket connection id is a no-op (no
panic, no double-close)"), but `removeConnection` unconditionally runs
`close(wsConn.send)`: a second call for the same already-removed
connection closes an already-closed channel, which panics in Go. -/

/-- C2 (code bug witnessed on the code): the first removal of connection
"c1" succeeds (removing the table entry and closing queue and socket),
and the second removal of the same connection panics (`none`) instead of
being a no-op. -/
theorem claim_C2_second_remove_panics :
    removeConnection ⟨["c1"], false, false⟩ "c1" = some ⟨[], true, true⟩ ∧
    (removeConnection ⟨["c1"], false, false⟩ "c1").bind
      (fun s => removeConnection s "c1") = none := by
  constructor <;> rfl

/-! ## C1: the web transports bypass the `Connection.Act` funnel (code bug)

`Connection.Act`'s own comment calls it "the central method for running
actions across all connection types (HTTP, WebSocket, CLI, etc.)", and
the spec calls it the single funnel guaranteeing uniform observability;
but `handleHTTP` and `handleWebSocketAction` dispatch through
`executeAction` (a bare `action.Run`) and emit no structured
`[ACTION:*]` log line at all, so their dispatch behaviour differs from a
`Connection.Act` call with the same connection, action and parameters. -/

/-- C1 (code bug witnessed on the code): dispatching the registered
action "echo" over WebSocket and over HTTP emits zero dispatch log
lines, returns the same successful response value that `Connection.Act`
computes — but `Connection.Act` itself emits exactly one structured log
line, so the transports' dispatch behaviour is not that of the funnel. -/
theorem claim_C1_transports_bypass_funnel :
    (handleWebSocketAction echoRegistry wsConn1
        [("type", JVal.str "action"), ("action", JVal.str "echo"),
         ("params", JVal.obj [])]).actLogs = [] ∧
    (handleWebSocketAction echoRegistry wsConn1
        [("type", JVal.str "action"), ("action", JVal.str "echo"),
         ("params", JVal.obj [])]).outbound
      = [wsSuccessEnvelope (JVal.obj [("received", JVal.obj [])])] ∧
    (handleHTTPDispatch echoAction [] "127.0.0.1" "h1").actLogs = [] ∧
    (handleHTTPDispatch echoAction [] "127.0.0.1" "h1").reply
      = HttpReply.ok (JVal.obj [("data", JVal.obj [("received", JVal.obj [])]),
          ("success", JVal.bool true)]) ∧
    (act false echoRegistry wsConn1 "echo" (some []) "GET" "/api/echo" 0).response
      = some (JVal.obj [("received", JVal.obj [])]) ∧
    (act false echoRegistry wsConn1 "echo" (some []) "GET" "/api/echo" 0).logs.length = 1 := by
  refine ⟨rfl, rfl, rfl, rfl, rfl, rfl⟩

/-! ## C7: broadcast never blocks; fan-out drops only at the full queue -/

/-- C7: `Broadcast` always has an outcome (never blocks); a successful
outcome enqueues exactly the serialized `{type:"broadcast", channel,
data}` envelope at the tail of the shared queue; when the queue has room
and the system is not shutting down the enqueue is the only outcome;
every error outcome implies the queue is full or the context is done,
and conversely one of the error outcomes is possible whenever the queue
is full or the context is done.  During fan-out each connection is
transformed independently (`deliverOne`): an unsubscribed connection is
untouched, a subscribed connection with a full queue has the message
dropped for it alone, and every other subscribed connection receives
the message regardless. -/
theorem claim_C7_broadcast_backpressure (s : WebState) (channel : String) (data : JVal)
    (msgData : String) :
    (∃ o, broadcastStep s channel data o) ∧
    (∀ q', broadcastStep s channel data (.enqueued q') →
      q' = s.broadcastQ ++ [(channel, (broadcastEnvelope channel data).marshal)]) ∧
    (s.ctxDone = false → s.broadcastQ.length < broadcastCap →
      ∀ o, broadcastStep s channel data o →
        o = .enqueued (s.broadcastQ
          ++ [(channel, (broadcastEnvelope channel data).marshal)])) ∧
    (∀ o, broadcastStep s channel data o →
      (o = .errShuttingDown ∨ o = .errFull) →
      s.ctxDone = true ∨ broadcastCap ≤ s.broadcastQ.length) ∧
    (s.ctxDone = true ∨ broadcastCap ≤ s.broadcastQ.length →
      ∃ o, broadcastStep s channel data o ∧ (o = .errShuttingDown ∨ o = .errFull)) ∧
    (∀ conn : FanConn, mapGetBool channel conn.subscriptions = false →
      deliverOne channel msgData conn = conn) ∧
    (∀ conn : FanConn, mapGetBool channel conn.subscriptions = true →
      sendCap ≤ conn.send.length → deliverOne channel msgData conn = conn) ∧
    (∀ conn : FanConn, mapGetBool channel conn.subscriptions = true →
      conn.send.length < sendCap →
      deliverOne channel msgData conn = { conn with send := conn.send ++ [msgData] }) ∧
    (∀ pre post (blocked : FanConn),
      fanOut (pre ++ blocked :: post) channel msgData
        = fanOut pre channel msgData
          ++ deliverOne channel msgData blocked :: fanOut post channel msgData) := by
  refine ⟨?_, ?_, ?_, ?_, ?_, ?_, ?_, ?_, ?_⟩
  · by_cases hq : s.broadcastQ.length < broadcastCap
    · exact ⟨_, .enqueue hq⟩
    · cases hd : s.ctxDone
      · exact ⟨_, .full (le_of_not_lt hq) hd⟩
      · exact ⟨_, .shuttingDown hd⟩
  · intro q' h
    cases h
    rfl
  · intro hd hq o h
    cases h with
    | enqueue _ => rfl
    | shuttingDown h1 => rw [hd] at h1; cases h1
    | full h1 _ => exact absurd hq (not_lt.mpr h1)
  · intro o h ho
    cases h with
    | enqueue hq =>
      rcases ho with ho | ho <;> cases ho
    | shuttingDown h1 => exact Or.inl h1
    | full h1 _ => exact Or.inr h1
  · intro h
    rcases h with hd | hq
    · exact ⟨_, .shuttingDown hd, Or.inl rfl⟩
    · cases hd : s.ctxDone
      · exact ⟨_, .full hq hd, Or.inr rfl⟩
      · exact ⟨_, .shuttingDown hd, Or.inl rfl⟩
  · intro conn h
    simp [deliverOne, h]
  · intro conn h1 h2
    simp [deliverOne, h1, not_lt.mpr h2]
  · intro conn h1 h2
    simp [deliverOne, h1, h2]
  · intro pre post blocked
    simp [fanOut]

set_option maxRecDepth 4000 in
/-- Witness for C7 at a concrete state: empty queue, not shutting down;
the unique outcome enqueues the serialized envelope; a subscribed
connection with a full queue is left unchanged while another subscribed
connection still receives the message. -/
theorem claim_C7_broadcast_backpressure_witness :
    (∃ o, broadcastStep ⟨[], false⟩ "room" (JVal.num 1) o) ∧
    (∀ o, broadcastStep ⟨[], false⟩ "room" (JVal.num 1) o →
      o = .enqueued [("room", (broadcastEnvelope "room" (JVal.num 1)).marshal)]) ∧
    deliverOne "room" "m" ⟨"full", [("room", true)], List.replicate 256 "x"⟩
      = ⟨"full", [("room", true)], List.replicate 256 "x"⟩ ∧
    deliverOne "room" "m" ⟨"free", [("room", true)], []⟩
      = ⟨"free", [("room", true)], ["m"]⟩ := by
  have h := claim_C7_broadcast_backpressure ⟨[], false⟩ "room" (JVal.num 1) "m"
  refine ⟨h.1, ?_, ?_, ?_⟩
  · intro o ho
    simpa using h.2.2.1 rfl (by decide) o ho
  · exact h.2.2.2.2.2.2.1 _ (by decide) (by simp [sendCap])
  · simpa using h.2.2.2.2.2.2.2.1 ⟨"free", [("room", true)], []⟩ (by decide) (by simp [sendCap])

/-! ## Route matcher: soundness of the compiled-pattern matcher -/

theorem countGrp_cons_grp (l : List RItem) : countGrp (RItem.grp :: l) = countGrp l + 1 := by
  simp [countGrp]

theorem countGrp_cons_ne {i : RItem} (l : List RItem) (h : i ≠ RItem.grp) :
    countGrp (i :: l) = countGrp l := by
  simp [countGrp, h]

theorem countGrp_append (l₁ l₂ : List RItem) :
    countGrp (l₁ ++ l₂) = countGrp l₁ + countGrp l₂ := by
  simp [countGrp]

theorem maxRun_le_length (s : List Char) : maxRun s ≤ s.length := by
  induction s with
  | nil => simp [maxRun]
  | cons c cs ih =>
    unfold maxRun at ih ⊢
    simp only [ne_eq] at ih ⊢
    rw [List.takeWhile_cons]
    by_cases h : c = '/'
    · simp [h]
    · simp only [h, not_false_eq_true, decide_True, if_true, List.length_cons]
      omega

theorem mem_take_maxRun {s : List Char} {k : Nat} (hk : k ≤ maxRun s) :
    ∀ c ∈ s.take k, c ≠ '/' := by
  induction s generalizing k with
  | nil => simp
  | cons d ds ih =>
    cases k with
    | zero => simp
    | succ j =>
      by_cases hd : d = '/'
      · exfalso
        unfold maxRun at hk
        rw [List.takeWhile_cons] at hk
        simp [hd] at hk
      · have hk' : j ≤ maxRun ds := by
          unfold maxRun at hk ⊢
          simp only [ne_eq] at hk ⊢
          rw [List.takeWhile_cons] at hk
          simp only [hd, not_false_eq_true, decide_True, if_true,
            List.length_cons] at hk
          omega
        intro c hc
        rw [List.take_succ_cons] at hc
        rcases List.mem_cons.mp hc with rfl | hc'
        · exact hd
        · exact ih hk' c hc'

theorem matchedSpec_cons_bol {rest : List RItem} {s : List Char} {caps : List (List Char)}
    {left : List Char} (h : matchedSpec rest s caps left) :
    matchedSpec (RItem.bol :: rest) s caps left := by
  obtain ⟨h1, h2, h3, h4, h5⟩ := h
  refine ⟨by rw [countGrp_cons_ne rest (by simp), h1], h2, h3, ?_, ?_⟩
  · intro hmem
    rcases List.mem_cons.mp hmem with he | he
    · cases he
    · exact h4 he
  · intro hnd
    exact h5 (fun hr => hnd (List.mem_cons_of_mem _ hr))

theorem matchedSpec_cons_eol {rest : List RItem} {caps : List (List Char)}
    {left : List Char} (h : matchedSpec rest [] caps left) :
    matchedSpec (RItem.eol :: rest) [] caps left := by
  obtain ⟨h1, h2, h3, h4, h5⟩ := h
  have hleft : left = [] := List.length_eq_zero.mp (Nat.le_zero.mp h3)
  refine ⟨by rw [countGrp_cons_ne rest (by simp), h1], h2, h3, fun _ => hleft, ?_⟩
  intro hnd
  exact h5 (fun hr => hnd (List.mem_cons_of_mem _ hr))

theorem matchedSpec_cons_lit {c : Char} {rest : List RItem} {s : List Char}
    {caps : List (List Char)} {left : List Char} (h : matchedSpec rest s caps left) :
    matchedSpec (RItem.lit c :: rest) (c :: s) caps left := by
  obtain ⟨h1, h2, h3, h4, h5⟩ := h
  refine ⟨by rw [countGrp_cons_ne rest (by simp), h1], h2,
    by simpa using Nat.le_succ_of_le h3, ?_, ?_⟩
  · intro hmem
    rcases List.mem_cons.mp hmem with he | he
    · cases he
    · exact h4 he
  · intro hnd
    obtain ⟨t, ht, hst⟩ := h5 (fun hr => hnd (List.mem_cons_of_mem _ hr))
    refine ⟨c :: t, ?_, ?_⟩
    · simp [substItems, ht]
    · simp [hst]

theorem matchedSpec_cons_dot {c : Char} {rest : List RItem} {s : List Char}
    {caps : List (List Char)} {left : List Char} (h : matchedSpec rest s caps left) :
    matchedSpec (RItem.dot :: rest) (c :: s) caps left := by
  obtain ⟨h1, h2, h3, h4, h5⟩ := h
  refine ⟨by rw [countGrp_cons_ne rest (by simp), h1], h2,
    by simpa using Nat.le_succ_of_le h3, ?_, ?_⟩
  · intro hmem
    rcases List.mem_cons.mp hmem with he | he
    · cases he
    · exact h4 he
  · intro hnd
    exact absurd (List.mem_cons_self _ _) hnd

/-- Soundness of the matcher: every successful match satisfies
`matchedSpec`. -/
theorem matP_sound :
    ∀ (items : List RItem) (s : List Char) (b : Bool) (caps : List (List Char))
      (left : List Char),
      matP items s b = some (caps, left) → matchedSpec items s caps left := by
  refine matP.induct
    (fun items s b => ∀ caps left, matP items s b = some (caps, left) →
      matchedSpec items s caps left)
    (fun rest s k => k ≤ maxRun s → ∀ caps left, tryGrp rest s k = some (caps, left) →
      matchedSpec (RItem.grp :: rest) s caps left)
    ?_ ?_ ?_ ?_ ?_ ?_ ?_ ?_ ?_ ?_ ?_ ?_ ?_ ?_ ?_
  · intro s b caps left h
    have he : matP [] s b = some ([], s) := by simp [matP]
    rw [he, Option.some.injEq, Prod.mk.injEq] at h
    obtain ⟨rfl, rfl⟩ := h
    exact ⟨rfl, by simp, le_refl _, by simp, fun _ => ⟨[], rfl, rfl⟩⟩
  · intro rest s ih caps left h
    have he : matP (RItem.bol :: rest) s true = matP rest s true := by simp [matP]
    rw [he] at h
    exact matchedSpec_cons_bol (ih caps left h)
  · intro rest s atStart hns caps left h
    simp [matP, hns] at h
  · intro rest b ih caps left h
    have he : matP (RItem.eol :: rest) [] b = matP rest [] false := by simp [matP]
    rw [he] at h
    exact matchedSpec_cons_eol (ih caps left h)
  · intro rest b c cs' caps left h
    simp [matP] at h
  · intro c rest b caps left h
    simp [matP] at h
  · intro rest b c cs' ih caps left h
    have he : matP (RItem.lit c :: rest) (c :: cs') b = matP rest cs' false := by
      simp [matP]
    rw [he] at h
    exact matchedSpec_cons_lit (ih caps left h)
  · intro c rest b d cs' hne caps left h
    simp [matP, hne] at h
  · intro rest b caps left h
    simp [matP] at h
  · intro rest b cs' caps left h
    simp [matP] at h
  · intro rest b c cs' hne ih caps left h
    have he : matP (RItem.dot :: rest) (c :: cs') b = matP rest cs' false := by
      simp [matP, hne]
    rw [he] at h
    exact matchedSpec_cons_dot (ih caps left h)
  · intro rest s b ih caps left h
    have he : matP (RItem.grp :: rest) s b = tryGrp rest s (maxRun s) := by simp [matP]
    rw [he] at h
    exact ih (le_refl _) caps left h
  · intro rest s hk caps left h
    simp [tryGrp] at h
  · intro rest s k p hmp ih hk caps left h
    obtain ⟨caps', left'⟩ := p
    have he : tryGrp rest s (k + 1) = some (s.take (k + 1) :: caps', left') := by
      simp [tryGrp, hmp]
    rw [he, Option.some.injEq, Prod.mk.injEq] at h
    obtain ⟨rfl, rfl⟩ := h
    obtain ⟨h1, h2, h3, h4, h5⟩ := ih caps' left' hmp
    have hklen : k + 1 ≤ s.length := le_trans hk (maxRun_le_length s)
    have htake : (s.take (k + 1)).length = k + 1 := by
      rw [List.length_take]
      omega
    refine ⟨?_, ?_, ?_, ?_, ?_⟩
    · simp only [List.length_cons, countGrp_cons_grp, h1]
    · intro cap hc
      rcases List.mem_cons.mp hc with rfl | hc'
      · refine ⟨?_, ?_⟩
        · intro hnil
          rw [hnil] at htake
          simp at htake
        · intro hsl
          exact (mem_take_maxRun hk '/' hsl) rfl
      · exact h2 cap hc'
    · have hd : left'.length ≤ (s.drop (k + 1)).length := h3
      rw [List.length_drop] at hd
      show left'.length ≤ s.length
      omega
    · intro hmem
      rcases List.mem_cons.mp hmem with he' | he'
      · cases he'
      · exact h4 he'
    · intro hnd
      obtain ⟨t, ht, hst⟩ := h5 (fun hr => hnd (List.mem_cons_of_mem _ hr))
      refine ⟨s.take (k + 1) ++ t, ?_, ?_⟩
      · simp [substItems, ht]
      · conv_lhs => rw [← List.take_append_drop (k + 1) s]
        rw [hst, List.append_assoc]
  · intro rest s k hmp ihm ih hk caps left h
    have he : tryGrp rest s (k + 1) = tryGrp rest s k := by
      simp [tryGrp, hmp]
    rw [he] at h
    exact ih (Nat.le_of_succ_le hk) caps left h

/-- The compiled body has exactly one capturing group per recorded
parameter name. -/
theorem compileCore_grps :
    ∀ (cs : List Char) (items : List RItem) (names : List String),
      compileCore cs = some (items, names) → countGrp items = names.length := by
  refine compileCore.induct
    (fun cs => ∀ items names, compileCore cs = some (items, names) →
      countGrp items = names.length)
    (fun acc cs => ∀ items names, compileTok acc cs = some (items, names) →
      countGrp items = names.length)
    ?_ ?_ ?_ ?_ ?_ ?_ ?_ ?_ ?_ ?_
  · intro items names h
    have he : compileCore [] = some ([], []) := by simp [compileCore]
    rw [he, Option.some.injEq, Prod.mk.injEq] at h
    obtain ⟨rfl, rfl⟩ := h
    rfl
  · intro items names h
    have he : compileCore [':'] = some ([RItem.lit ':'], []) := by simp [compileCore]
    rw [he, Option.some.injEq, Prod.mk.injEq] at h
    obtain ⟨rfl, rfl⟩ := h
    rfl
  · intro c cs' hw ih items names h
    have he : compileCore (':' :: c :: cs') = compileTok [c] cs' := by
      simp [compileCore, hw]
    rw [he] at h
    exact ih items names h
  · intro c cs' hw ih items names h
    have he : compileCore (':' :: c :: cs')
        = (compileCore (c :: cs')).map (fun p => (RItem.lit ':' :: p.1, p.2)) := by
      simp [compileCore, hw]
    rw [he] at h
    cases hcc : compileCore (c :: cs') with
    | none => rw [hcc] at h; cases h
    | some p =>
      obtain ⟨is, ns⟩ := p
      rw [hcc, Option.map_some', Option.some.injEq, Prod.mk.injEq] at h
      obtain ⟨rfl, rfl⟩ := h
      rw [countGrp_cons_ne is (by simp)]
      exact ih is ns hcc
  · intro cs hne ih items names h
    have he : compileCore ('.' :: cs)
        = (compileCore cs).map (fun p => (RItem.dot :: p.1, p.2)) := by
      simp [compileCore]
    rw [he] at h
    cases hcc : compileCore cs with
    | none => rw [hcc] at h; cases h
    | some p =>
      obtain ⟨is, ns⟩ := p
      rw [hcc, Option.map_some', Option.some.injEq, Prod.mk.injEq] at h
      obtain ⟨rfl, rfl⟩ := h
      rw [countGrp_cons_ne is (by simp)]
      exact ih is ns hcc
  · intro c cs hne hdot hp ih items names h
    have he : compileCore (c :: cs)
        = (compileCore cs).map (fun p => (RItem.lit c :: p.1, p.2)) := by
      cases cs with
      | nil => simp [compileCore, hne, hdot, hp]
      | cons d ds => simp [compileCore, hne, hdot, hp]
    rw [he] at h
    cases hcc : compileCore cs with
    | none => rw [hcc] at h; cases h
    | some p =>
      obtain ⟨is, ns⟩ := p
      rw [hcc, Option.map_some', Option.some.injEq, Prod.mk.injEq] at h
      obtain ⟨rfl, rfl⟩ := h
      rw [countGrp_cons_ne is (by simp)]
      exact ih is ns hcc
  · intro c cs hne hdot hp items names h
    have he : compileCore (c :: cs) = none := by
      cases cs with
      | nil => simp [compileCore, hne, hdot, hp]
      | cons d ds => simp [compileCore, hne, hdot, hp]
    rw [he] at h
    cases h
  · intro acc items names h
    have he : compileTok acc [] = some ([RItem.grp], [String.mk acc]) := by
      simp [compileTok]
    rw [he, Option.some.injEq, Prod.mk.injEq] at h
    obtain ⟨rfl, rfl⟩ := h
    rfl
  · intro acc c cs' hw ih items names h
    have he : compileTok acc (c :: cs') = compileTok (acc ++ [c]) cs' := by
      simp [compileTok, hw]
    rw [he] at h
    exact ih items names h
  · intro acc c cs' hw ih items names h
    have he : compileTok acc (c :: cs')
        = (compileCore (c :: cs')).map
            (fun p => (RItem.grp :: p.1, String.mk acc :: p.2)) := by
      simp [compileTok, hw]
    rw [he] at h
    cases hcc : compileCore (c :: cs') with
    | none => rw [hcc] at h; cases h
    | some p =>
      obtain ⟨is, ns⟩ := p
      rw [hcc, Option.map_some', Option.some.injEq, Prod.mk.injEq] at h
      obtain ⟨rfl, rfl⟩ := h
      rw [countGrp_cons_grp is, ih is ns hcc]
      rfl

theorem matP_bol_false (tail : List RItem) (s : List Char) :
    matP (RItem.bol :: tail) s false = none := by
  simp [matP]

theorem findAux_bol_pos (tail : List RItem) :
    ∀ (s : List Char) (off : Nat), off ≠ 0 →
      findAux (RItem.bol :: tail) off s = none := by
  intro s
  induction s with
  | nil =>
    intro off hoff
    have hd : decide (off = 0) = false := by simp [hoff]
    simp [findAux, hd, matP_bol_false]
  | cons c s' ih =>
    intro off hoff
    have hd : decide (off = 0) = false := by simp [hoff]
    simp only [findAux, hd, matP_bol_false]
    exact ih (off + 1) (Nat.succ_ne_zero off)

/-- A pattern anchored with `^` can only be found at offset 0, and the
found captures are those of the anchored match at the start. -/
theorem findSubmatch_bol (tail : List RItem) (s : List Char) (k : Nat)
    (caps : List (List Char)) (left : List Char)
    (h : findSubmatch (RItem.bol :: tail) s = some (k, caps, left)) :
    k = 0 ∧ matP (RItem.bol :: tail) s true = some (caps, left) := by
  unfold findSubmatch at h
  cases s with
  | nil =>
    simp only [findAux] at h
    cases hm : matP (RItem.bol :: tail) [] true with
    | none =>
      rw [show (decide True) = true from rfl, hm] at h
      cases h
    | some p =>
      obtain ⟨caps0, left0⟩ := p
      rw [show (decide True) = true from rfl, hm, Option.some.injEq, Prod.mk.injEq,
        Prod.mk.injEq] at h
      obtain ⟨rfl, rfl, rfl⟩ := h
      exact ⟨rfl, by simp [hm]⟩
  | cons c s' =>
    simp only [findAux] at h
    cases hm : matP (RItem.bol :: tail) (c :: s') true with
    | none =>
      rw [show (decide True) = true from rfl, hm,
        findAux_bol_pos tail s' (0 + 1) (by simp)] at h
      cases h
    | some p =>
      obtain ⟨caps0, left0⟩ := p
      rw [show (decide True) = true from rfl, hm, Option.some.injEq, Prod.mk.injEq,
        Prod.mk.injEq] at h
      obtain ⟨rfl, rfl, rfl⟩ := h
      exact ⟨rfl, by simp [hm]⟩

/-! ## Parameter extraction (the `matchRoute` loop) -/

theorem mapFind_eq_none_iff {α : Type} {k : String} {m : List (String × α)} :
    mapFind k m = none ↔ ∀ kv ∈ m, kv.1 ≠ k := by
  unfold mapFind
  rw [Option.map_eq_none', List.find?_eq_none]
  constructor
  · intro h kv hkv
    simpa using h kv hkv
  · intro h kv hkv
    simpa using h kv hkv

theorem mapSet_length_fresh {α : Type} {k : String} {m : List (String × α)} (v : α)
    (h : mapFind k m = none) : (mapSet k v m).length = m.length + 1 := by
  unfold mapSet
  rw [List.length_append, List.filter_eq_self.mpr]
  · rfl
  · intro kv hkv
    simpa using mapFind_eq_none_iff.mp h kv hkv

theorem foldSet_lookup_other (pairs : List (String × List Char))
    (acc : List (String × String)) (nm : String) (h : ∀ p ∈ pairs, p.1 ≠ nm) :
    mapFind nm (pairs.foldl (fun m p => mapSet p.1 (String.mk p.2) m) acc)
      = mapFind nm acc := by
  induction pairs generalizing acc with
  | nil => rfl
  | cons q rest ih =>
    rw [List.foldl_cons, ih _ (fun p hp => h p (List.mem_cons_of_mem q hp))]
    exact mapFind_set_ne (Ne.symm (h q (List.mem_cons_self q rest))) _ _

theorem foldSet_lookup_mem (pairs : List (String × List Char))
    (acc : List (String × String)) (nm : String) (cap : List Char)
    (hnd : (pairs.map Prod.fst).Nodup) (hmem : (nm, cap) ∈ pairs) :
    mapFind nm (pairs.foldl (fun m p => mapSet p.1 (String.mk p.2) m) acc)
      = some (String.mk cap) := by
  induction pairs generalizing acc with
  | nil => cases hmem
  | cons q rest ih =>
    rw [List.map_cons, List.nodup_cons] at hnd
    rcases List.mem_cons.mp hmem with rfl | hmem'
    · have hother : ∀ p ∈ rest, p.1 ≠ nm := by
        intro p hp heq
        apply hnd.1
        have hmm : p.1 ∈ rest.map Prod.fst := List.mem_map_of_mem Prod.fst hp
        rw [heq] at hmm
        exact hmm
      rw [List.foldl_cons, foldSet_lookup_other rest _ nm hother]
      exact mapFind_set_self _ _ _
    · rw [List.foldl_cons]
      exact ih _ hnd.2 hmem'

theorem foldSet_length (pairs : List (String × List Char))
    (acc : List (String × String)) (hnd : (pairs.map Prod.fst).Nodup)
    (hfresh : ∀ p ∈ pairs, mapFind p.1 acc = none) :
    (pairs.foldl (fun m p => mapSet p.1 (String.mk p.2) m) acc).length
      = acc.length + pairs.length := by
  induction pairs generalizing acc with
  | nil => rfl
  | cons q rest ih =>
    rw [List.map_cons, List.nodup_cons] at hnd
    have hfresh2 : ∀ p ∈ rest, mapFind p.1 (mapSet q.1 (String.mk q.2) acc) = none := by
      intro p hp
      have hne : p.1 ≠ q.1 := by
        intro heq
        apply hnd.1
        have hmm : p.1 ∈ rest.map Prod.fst := List.mem_map_of_mem Prod.fst hp
        rw [heq] at hmm
        exact hmm
      rw [mapFind_set_ne hne]
      exact hfresh p (List.mem_cons_of_mem q hp)
    rw [List.foldl_cons, ih _ hnd.2 hfresh2,
      mapSet_length_fresh _ (hfresh q (List.mem_cons_self q rest))]
    simp [List.length_cons]
    omega

/-- The `matchRoute` extraction loop under distinct parameter names:
one map entry per name, each mapped to its own capture. -/
theorem extractParams_spec (names : List String) (caps : List (List Char))
    (hnd : names.Nodup) (hlen : caps.length = names.length) :
    (extractParams names caps).length = names.length ∧
    ∀ nm cap, (nm, cap) ∈ names.zip caps →
      mapFind nm (extractParams names caps) = some (String.mk cap) := by
  have hkeys : (names.zip caps).map Prod.fst = names :=
    List.map_fst_zip names caps (le_of_eq hlen.symm)
  have hnd' : ((names.zip caps).map Prod.fst).Nodup := by
    rw [hkeys]
    exact hnd
  constructor
  · unfold extractParams
    rw [foldSet_length (names.zip caps) [] hnd' (fun p _ => rfl)]
    simp [List.length_zip, hlen]
  · intro nm cap hmem
    exact foldSet_lookup_mem _ _ _ _ hnd' hmem

/-! ## C8 and C9: route compilation and matching -/

theorem compileRoute_eq {pattern : String} {cr : CompiledRoute}
    (hc : compileRoute pattern = some cr) :
    ∃ core names, compileCore pattern.data = some (core, names) ∧
      cr.items = RItem.bol :: core ++ [RItem.eol] ∧ cr.paramNames = names := by
  unfold compileRoute at hc
  cases hcc : compileCore pattern.data with
  | none => rw [hcc] at hc; cases hc
  | some p =>
    obtain ⟨core, names⟩ := p
    rw [hcc, Option.map_some', Option.some.injEq] at hc
    exact ⟨core, names, rfl, by rw [← hc], by rw [← hc]⟩

/-- C9 (amended): the compiled pattern is anchored at both ends — any
found match starts at offset 0 and consumes the entire path, so a route
matches a full path and never a strict prefix or suffix of it; each
`:name` token captures a nonempty run of non-slash characters and never
matches across a slash; and for patterns without regex metacharacters
other than the escaped `/` (no `.dot` item), the matched path is exactly
the pattern's literals with each token replaced by its capture — literal
parts match only themselves.  (An unescaped `.` in the pattern keeps its
regex meaning, which is where the original claim fails.) -/
theorem claim_C9_compile_amended (pattern : String) (cr : CompiledRoute) (path : String)
    (k : Nat) (caps : List (List Char)) (left : List Char)
    (hc : compileRoute pattern = some cr)
    (hm : findSubmatch cr.items path.data = some (k, caps, left)) :
    k = 0 ∧ left = [] ∧
    (∀ cap ∈ caps, cap ≠ [] ∧ '/' ∉ cap) ∧
    (RItem.dot ∉ cr.items → substItems cr.items caps = some path.data) := by
  obtain ⟨core, names, hcc, hitems, hnames⟩ := compileRoute_eq hc
  rw [hitems] at hm
  obtain ⟨hk0, hmat⟩ := findSubmatch_bol _ _ _ _ _ hm
  obtain ⟨h1, h2, h3, h4, h5⟩ := matP_sound _ _ _ _ _ hmat
  have hleft : left = [] := h4 (by simp)
  refine ⟨hk0, hleft, h2, ?_⟩
  intro hnd
  rw [hitems] at hnd ⊢
  obtain ⟨t, ht, hst⟩ := h5 hnd
  rw [hleft, List.append_nil] at hst
  have ht' : substItems (RItem.bol :: core ++ [RItem.eol]) caps = some t := ht
  rw [ht', hst]

/-- C8 (amended): a matching path yields exactly one capture per `:name`
token, in pattern order; the parameter *map* built by `matchRoute` has
one entry per distinct name — so exactly N entries, each the literal
captured text, whenever the N token names are distinct (with duplicated
names, later tokens overwrite earlier ones in the Go map). -/
theorem claim_C8_params_amended (pattern : String) (cr : CompiledRoute) (path : String)
    (k : Nat) (caps : List (List Char)) (left : List Char)
    (hc : compileRoute pattern = some cr)
    (hm : findSubmatch cr.items path.data = some (k, caps, left)) :
    caps.length = cr.paramNames.length ∧
    (cr.paramNames.Nodup →
      (extractParams cr.paramNames caps).length = cr.paramNames.length ∧
      ∀ nm cap, (nm, cap) ∈ cr.paramNames.zip caps →
        mapFind nm (extractParams cr.paramNames caps) = some (String.mk cap)) := by
  obtain ⟨core, names, hcc, hitems, hnames⟩ := compileRoute_eq hc
  rw [hitems] at hm
  obtain ⟨hk0, hmat⟩ := findSubmatch_bol _ _ _ _ _ hm
  have hlen : caps.length = cr.paramNames.length := by
    have h1 : caps.length = countGrp (RItem.bol :: (core ++ [RItem.eol])) :=
      (matP_sound _ _ _ _ _ hmat).1
    have hco : countGrp (core ++ [RItem.eol]) = countGrp core := by
      rw [countGrp_append]
      simp [countGrp]
    rw [h1, countGrp_cons_ne _ (by simp), hco, hnames]
    exact compileCore_grps _ _ _ hcc
  exact ⟨hlen, fun hnd => extractParams_spec _ _ hnd hlen⟩

/-- Witness for C9 (amended) at the route "/u/:id" and path "/u/42". -/
theorem claim_C9_compile_amended_witness :
    compileRoute "/u/:id" = some uidRoute ∧
    findSubmatch uidRoute.items "/u/42".data = some (0, [['4', '2']], []) ∧
    (∀ cap ∈ [['4', '2']], cap ≠ ([] : List Char) ∧ '/' ∉ cap) ∧
    (RItem.dot ∉ uidRoute.items →
      substItems uidRoute.items [['4', '2']] = some "/u/42".data) := by
  have hc : compileRoute "/u/:id" = some uidRoute := by
    simp [compileRoute, compileCore, compileTok, wordChar, plainChar, uidRoute]
  have hm : findSubmatch uidRoute.items "/u/42".data = some (0, [['4', '2']], []) := by
    simp [uidRoute, findSubmatch, findAux, matP, tryGrp, maxRun]
  have h := claim_C9_compile_amended "/u/:id" uidRoute "/u/42" 0 [['4', '2']] [] hc hm
  exact ⟨hc, hm, h.2.2.1, h.2.2.2⟩

/-- Witness for C8 (amended) at the route "/u/:id" and path "/u/42". -/
theorem claim_C8_params_amended_witness :
    compileRoute "/u/:id" = some uidRoute ∧
    findSubmatch uidRoute.items "/u/42".data = some (0, [['4', '2']], []) ∧
    [['4', '2']].length = uidRoute.paramNames.length ∧
    (extractParams uidRoute.paramNames [['4', '2']]).length = uidRoute.paramNames.length ∧
    mapFind "id" (extractParams uidRoute.paramNames [['4', '2']])
      = some (String.mk ['4', '2']) := by
  have hc : compileRoute "/u/:id" = some uidRoute := by
    simp [compileRoute, compileCore, compileTok, wordChar, plainChar, uidRoute]
  have hm : findSubmatch uidRoute.items "/u/42".data = some (0, [['4', '2']], []) := by
    simp [uidRoute, findSubmatch, findAux, matP, tryGrp, maxRun]
  have h := claim_C8_params_amended "/u/:id" uidRoute "/u/42" 0 [['4', '2']] [] hc hm
  have hnd : uidRoute.paramNames.Nodup := by simp [uidRoute]
  refine ⟨hc, hm, h.1, (h.2 hnd).1, ?_⟩
  exact (h.2 hnd).2 "id" ['4', '2'] (by simp [uidRoute])

/-- C8 counterexample for the claim as stated: the pattern "/u/:id/:id"
has N = 2 `:name` tokens, yet matching "/u/1/2" extracts a parameter map
with a single entry ("id" ↦ "2") — the Go map collapses equal names, so
the match does not yield exactly N parameters, one per token. -/
theorem claim_C8_counterexample :
    (compileRoute "/u/:id/:id").map (fun cr => cr.paramNames) = some ["id", "id"] ∧
    (compileRoute "/u/:id/:id").bind (fun cr =>
        (findSubmatch cr.items "/u/1/2".data).map
          (fun p => extractParams cr.paramNames p.2.1))
      = some [("id", "2")] := by
  constructor
  · simp [compileRoute, compileCore, compileTok, wordChar, plainChar]
  · simp [compileRoute, compileCore, compileTok, wordChar, plainChar, findSubmatch,
      findAux, matP, tryGrp, maxRun, extractParams, mapSet]

/-- C9 counterexample for the claim as stated: "/a.b" is a pattern with
no `:name` tokens, so by the claim its literal text should match only
itself; but `compileRoute` escapes only `/`, so the `.` stays a regex
any-character and the compiled pattern also matches the different path
"/aXb". -/
theorem claim_C9_counterexample :
    compileRoute "/a.b"
      = some ⟨[.bol, .lit '/', .lit 'a', .dot, .lit 'b', .eol], []⟩ ∧
    findSubmatch [RItem.bol, .lit '/', .lit 'a', .dot, .lit 'b', .eol] "/aXb".data
      = some (0, [], []) ∧
    "/aXb" ≠ "/a.b" := by
  refine ⟨?_, ?_, by decide⟩
  · simp [compileRoute, compileCore, wordChar, plainChar]
  · simp [findSubmatch, findAux, matP, maxRun]

end GoActionHero
